import Mathlib

/-!
Verification of the flocking simulation core (`flocking.py`).

The three source functions — `get_triangle_points`, `update_locations` and
`find_neighbors` — are embedded over the real numbers.  Machine floats are
modelled as exact reals; the Python float modulo `a % b` is modelled as
`a - b * ⌊a / b⌋`, which matches Python's sign-of-divisor convention.

Division sites in the source are instrumented: `checkedDiv` fails (with
`StepError.divisionByZero`) exactly when the divisor is zero, which is the
situation where numpy would emit a divide warning and produce a non-finite
value.  The `assert len(weights) == 3` at the top of `update_locations` is
modelled as the `StepError.invalidArgument` failure.
-/

namespace Flocking

/-- Failure conditions of the stepper: the malformed-weights assert, and a
division whose divisor is zero. -/
inductive StepError
  | invalidArgument
  | divisionByZero
  deriving DecidableEq

/-- Division instrumented to fail when the divisor is zero (the case where
numpy produces a non-finite value). -/
noncomputable def checkedDiv (a b : ℝ) : Except StepError ℝ :=
  if b = 0 then .error .divisionByZero else .ok (a / b)

/-- Python's float modulo `a % b`: `a - b * ⌊a / b⌋` (result has the sign of
the divisor). -/
noncomputable def pymod (a b : ℝ) : ℝ :=
  a - b * ⌊a / b⌋

/-- Embedding of `np.linalg.norm` of a 2-vector. -/
noncomputable def norm2 (v : ℝ × ℝ) : ℝ :=
  Real.sqrt (v.1 ^ 2 + v.2 ^ 2)

/-- Embedding of `find_neighbors(idx, xs, ys, os, distance)`: iterate over
`enumerate(zip(xs, ys, os))`, skip `i == idx`, keep the entries whose
Euclidean distance to `(xs[idx], ys[idx])` is strictly below `distance`,
and collect positions and headings in iteration order. -/
noncomputable def find_neighbors (idx : ℕ) (xs ys os : List ℝ) (distance : ℝ) :
    List ℝ × List ℝ × List ℝ :=
  let x0 := xs.getD idx 0
  let y0 := ys.getD idx 0
  let kept := ((xs.zip (ys.zip os)).enum).filter fun p =>
    p.1 ≠ idx ∧ Real.sqrt ((p.2.1 - x0) ^ 2 + (p.2.2.1 - y0) ^ 2) < distance
  (kept.map fun p => p.2.1, kept.map fun p => p.2.2.1, kept.map fun p => p.2.2.2)

/-- Spec-side characterisation for the neighbor query: the indices `j ≠ idx`
whose plane Euclidean distance to agent `idx` is strictly less than `r`,
in ascending order. -/
noncomputable def neighborIndices (idx : ℕ) (xs ys : List ℝ) (r : ℝ) : List ℕ :=
  (List.range xs.length).filter fun j =>
    j ≠ idx ∧
      Real.sqrt ((xs.getD j 0 - xs.getD idx 0) ^ 2 + (ys.getD j 0 - ys.getD idx 0) ^ 2) < r

/-- Embedding of `get_triangle_points(x, y, o, nose_length, wing_length,
wing_angle)`: beak and wing points around `(x, y)`, re-centered by the offset
between the raw three-point average and `(x, y)`. -/
noncomputable def get_triangle_points (x y o : ℝ) (nose_length : ℝ := 30)
    (wing_length : ℝ := 10) (wing_angle : ℝ := 1.175) :
    (ℝ × ℝ) × (ℝ × ℝ) × (ℝ × ℝ) :=
  let beak_x := Real.cos o * nose_length + x
  let beak_y := Real.sin o * nose_length + y
  let left_wing_x := Real.cos (o - wing_angle) * wing_length + x
  let left_wing_y := Real.sin (o - wing_angle) * wing_length + y
  let right_wing_x := Real.cos (o + wing_angle) * wing_length + x
  let right_wing_y := Real.sin (o + wing_angle) * wing_length + y
  let centroid_offset_x := (beak_x + left_wing_x + right_wing_x) / 3 - x
  let centroid_offset_y := (beak_y + left_wing_y + right_wing_y) / 3 - y
  ((beak_x - centroid_offset_x, beak_y - centroid_offset_y),
   (left_wing_x - centroid_offset_x, left_wing_y - centroid_offset_y),
   (right_wing_x - centroid_offset_x, right_wing_y - centroid_offset_y))

/-- The per-agent force-blending part of `update_locations`: the agent's
orientation vector, plus the guarded alignment, cohesion and separation
contributions computed from its neighbors.  All division sites are
instrumented with `checkedDiv`. -/
noncomputable def agentVector (xs ys os : List ℝ) (radius w0 w1 w2 : ℝ) (i : ℕ) :
    Except StepError (ℝ × ℝ) := do
  let o := os.getD i 0
  let vector : ℝ × ℝ := (Real.cos o, Real.sin o)
  let nbrs := find_neighbors i xs ys os radius
  if nbrs.1.length = 0 then .ok vector else do
    let mx ← checkedDiv nbrs.1.sum nbrs.1.length
    let my ← checkedDiv nbrs.2.1.sum nbrs.2.1.length
    let ax ← checkedDiv (nbrs.2.2.map Real.cos).sum nbrs.2.2.length
    let ay ← checkedDiv (nbrs.2.2.map Real.sin).sum nbrs.2.2.length
    let alignment : ℝ × ℝ := (ax, ay)
    let alignment_mag := norm2 alignment
    let cohesion : ℝ × ℝ := (mx - xs.getD i 0, my - ys.getD i 0)
    let cohesion_mag := norm2 cohesion
    let sep := -((nbrs.1.map fun t => t - xs.getD i 0).sum)
    let separation : ℝ × ℝ := (sep, sep)
    let separation_mag := norm2 separation
    let v1 ← if alignment_mag ≠ 0 then do
        let ux ← checkedDiv alignment.1 alignment_mag
        let uy ← checkedDiv alignment.2 alignment_mag
        Except.ok (vector.1 + ux * w0, vector.2 + uy * w0)
      else Except.ok vector
    let v2 ← if cohesion_mag ≠ 0 then do
        let ux ← checkedDiv cohesion.1 cohesion_mag
        let uy ← checkedDiv cohesion.2 cohesion_mag
        Except.ok (v1.1 + ux * w1, v1.2 + uy * w1)
      else Except.ok v1
    let v3 ← if separation_mag ≠ 0 then do
        let ux ← checkedDiv separation.1 separation_mag
        let uy ← checkedDiv separation.2 separation_mag
        Except.ok (v2.1 + ux * w2, v2.2 + uy * w2)
      else Except.ok v2
    .ok v3

/-- The force blending of `update_locations` restricted to the orientation
vector plus the alignment and cohesion contributions (everything before the
separation term is added).  Used to state what the separation step adds. -/
noncomputable def agentVectorNoSep (xs ys os : List ℝ) (radius w0 w1 : ℝ) (i : ℕ) :
    ℝ × ℝ :=
  let o := os.getD i 0
  let vector : ℝ × ℝ := (Real.cos o, Real.sin o)
  let nbrs := find_neighbors i xs ys os radius
  if nbrs.1.length = 0 then vector else
    let mx := nbrs.1.sum / nbrs.1.length
    let my := nbrs.2.1.sum / nbrs.2.1.length
    let alignment : ℝ × ℝ :=
      ((nbrs.2.2.map Real.cos).sum / nbrs.2.2.length,
       (nbrs.2.2.map Real.sin).sum / nbrs.2.2.length)
    let alignment_mag := norm2 alignment
    let cohesion : ℝ × ℝ := (mx - xs.getD i 0, my - ys.getD i 0)
    let cohesion_mag := norm2 cohesion
    let v1 := if alignment_mag ≠ 0 then
        (vector.1 + alignment.1 / alignment_mag * w0,
         vector.2 + alignment.2 / alignment_mag * w0)
      else vector
    if cohesion_mag ≠ 0 then
      (v1.1 + cohesion.1 / cohesion_mag * w1, v1.2 + cohesion.2 / cohesion_mag * w1)
    else v1

/-- The value `agentVector` computes: its force blending never divides by a
zero divisor (every normalisation there is behind a magnitude or length
guard), so it always succeeds, with this value. -/
noncomputable def agentVectorVal (xs ys os : List ℝ) (radius w0 w1 w2 : ℝ) (i : ℕ) :
    ℝ × ℝ :=
  let o := os.getD i 0
  let nbrs := find_neighbors i xs ys os radius
  if nbrs.1.length = 0 then (Real.cos o, Real.sin o) else
    let sep := -((nbrs.1.map fun t => t - xs.getD i 0).sum)
    let separation_mag := norm2 (sep, sep)
    let v2 := agentVectorNoSep xs ys os radius w0 w1 i
    if separation_mag ≠ 0 then
      (v2.1 + sep / separation_mag * w2, v2.2 + sep / separation_mag * w2)
    else v2

/-- One agent's full update: blend forces, normalise the combined vector and
scale by `speed`, derive the new heading (`tanh` of the component ratio, `0`
when the y-component is zero), and wrap the new position over the canvas. -/
noncomputable def stepAgent (xs ys os : List ℝ) (w h speed radius w0 w1 w2 : ℝ)
    (i : ℕ) : Except StepError (ℝ × ℝ × ℝ) := do
  let v ← agentVector xs ys os radius w0 w1 w2 i
  let n := norm2 v
  let sx ← checkedDiv v.1 n
  let sy ← checkedDiv v.2 n
  let vx := sx * speed
  let vy := sy * speed
  let angle ← if vy ≠ 0 then do
      let q ← checkedDiv vy vx
      Except.ok (Real.tanh q)
    else Except.ok (0 : ℝ)
  .ok (pymod (vx + xs.getD i 0) w, pymod (vy + ys.getD i 0) h, angle)

/-- The per-agent loop of `update_locations`, collecting the new x, y and
heading lists in iteration order. -/
noncomputable def updateLoop (xs ys os : List ℝ) (w h speed radius w0 w1 w2 : ℝ) :
    List ℕ → Except StepError (List ℝ × List ℝ × List ℝ)
  | [] => .ok ([], [], [])
  | i :: rest => do
    let t ← stepAgent xs ys os w h speed radius w0 w1 w2 i
    let r ← updateLoop xs ys os w h speed radius w0 w1 w2 rest
    .ok (t.1 :: r.1, t.2.1 :: r.2.1, t.2.2 :: r.2.2)

/-- Embedding of `update_locations(xs, ys, os, canvas_size, speed,
interaction_radius, weights)`: assert that `weights` has exactly three
components, then update every agent in index order. -/
noncomputable def update_locations (xs ys os : List ℝ) (canvas_size : ℝ × ℝ)
    (speed radius : ℝ) (weights : List ℝ) :
    Except StepError (List ℝ × List ℝ × List ℝ) :=
  if weights.length = 3 then
    updateLoop xs ys os canvas_size.1 canvas_size.2 speed radius
      (weights.getD 0 0) (weights.getD 1 0) (weights.getD 2 0)
      (List.range xs.length)
  else .error .invalidArgument

/-! ### Helper lemmas -/

theorem except_bind_ok {ε α β : Type} {e : Except ε α} {k : α → Except ε β} {v : β} :
    (e >>= k) = Except.ok v ↔ ∃ a, e = Except.ok a ∧ k a = Except.ok v := by
  cases e with
  | error u => simp [Bind.bind, Except.bind]
  | ok a => simp [Bind.bind, Except.bind]

theorem checkedDiv_of_ne {a b : ℝ} (hb : b ≠ 0) :
    checkedDiv a b = Except.ok (a / b) := by
  simp [checkedDiv, hb]

theorem pymod_nonneg (a : ℝ) {b : ℝ} (hb : 0 < b) : 0 ≤ pymod a b := by
  have h1 : (⌊a / b⌋ : ℝ) ≤ a / b := Int.floor_le _
  have h2 : b * ⌊a / b⌋ ≤ a := by
    calc b * (⌊a / b⌋ : ℝ) ≤ b * (a / b) := by
          exact mul_le_mul_of_nonneg_left h1 hb.le
      _ = a := by field_simp
  simpa [pymod] using h2

theorem pymod_lt (a : ℝ) {b : ℝ} (hb : 0 < b) : pymod a b < b := by
  have h1 : a / b < ⌊a / b⌋ + 1 := Int.lt_floor_add_one _
  have h2 : a < b * (⌊a / b⌋ + 1) := by
    have := mul_lt_mul_of_pos_left h1 hb
    calc a = b * (a / b) := by field_simp
      _ < b * ((⌊a / b⌋ : ℝ) + 1) := this
  have : a - b * ⌊a / b⌋ < b := by nlinarith
  simpa [pymod] using this

theorem tanh_lt_one (x : ℝ) : Real.tanh x < 1 := by
  rw [Real.tanh_eq_sinh_div_cosh, div_lt_one (Real.cosh_pos x)]
  exact Real.sinh_lt_cosh x

theorem neg_one_lt_tanh (x : ℝ) : -1 < Real.tanh x := by
  rw [Real.tanh_eq_sinh_div_cosh, lt_div_iff (Real.cosh_pos x)]
  have h := Real.sinh_lt_cosh (-x)
  rw [Real.sinh_neg, Real.cosh_neg] at h
  linarith

theorem find_neighbors_lengths (idx : ℕ) (xs ys os : List ℝ) (d : ℝ) :
    (find_neighbors idx xs ys os d).2.1.length = (find_neighbors idx xs ys os d).1.length ∧
    (find_neighbors idx xs ys os d).2.2.length = (find_neighbors idx xs ys os d).1.length := by
  simp [find_neighbors]

theorem enum_zip_eq_map_range (xs ys os : List ℝ)
    (hy : ys.length = xs.length) (ho : os.length = xs.length) :
    (xs.zip (ys.zip os)).enum =
      (List.range xs.length).map
        (fun j => (j, (xs.getD j 0, (ys.getD j 0, os.getD j 0)))) := by
  have hzlen : (xs.zip (ys.zip os)).length = xs.length := by
    simp [hy, ho]
  apply List.ext_getElem
  · simp [hzlen]
  · intro n h1 h2
    have hn : n < xs.length := by simpa [hzlen] using h1
    have hny : n < ys.length := by omega
    have hno : n < os.length := by omega
    simp [List.getElem_enum, List.getElem_zip, hzlen,
      List.getElem?_eq_getElem hn, List.getElem?_eq_getElem hny,
      List.getElem?_eq_getElem hno]

theorem agentVector_eq (xs ys os : List ℝ) (radius w0 w1 w2 : ℝ) (i : ℕ) :
    agentVector xs ys os radius w0 w1 w2 i =
      Except.ok (agentVectorVal xs ys os radius w0 w1 w2 i) := by
  have hl := find_neighbors_lengths i xs ys os radius
  rcases Nat.eq_zero_or_pos (find_neighbors i xs ys os radius).1.length with h0 | hpos
  · simp [agentVector, agentVectorVal, h0]
  · have hlen0 : ¬ (find_neighbors i xs ys os radius).1.length = 0 := by omega
    have hne1 : ((find_neighbors i xs ys os radius).1.length : ℝ) ≠ 0 := by
      exact_mod_cast hlen0
    have hne2 : ((find_neighbors i xs ys os radius).2.1.length : ℝ) ≠ 0 := by
      rw [hl.1]; exact_mod_cast hlen0
    have hne3 : ((find_neighbors i xs ys os radius).2.2.length : ℝ) ≠ 0 := by
      rw [hl.2]; exact_mod_cast hlen0
    simp only [agentVector, agentVectorVal, agentVectorNoSep, hlen0, if_false,
      ite_false, checkedDiv_of_ne hne1, checkedDiv_of_ne hne2, checkedDiv_of_ne hne3,
      Bind.bind, Except.bind]
    split_ifs with h1 h2 h3 <;>
      simp_all [checkedDiv_of_ne, Bind.bind, Except.bind]

theorem checkedDiv_ok {a b c : ℝ} (h : checkedDiv a b = Except.ok c) :
    c = a / b ∧ b ≠ 0 := by
  by_cases hb : b = 0 <;> simp_all [checkedDiv]

theorem stepAgent_eval (xs ys os : List ℝ) (w h speed radius w0 w1 w2 : ℝ) (i : ℕ)
    (v : ℝ × ℝ) (hv : agentVectorVal xs ys os radius w0 w1 w2 i = v)
    (hn : norm2 v ≠ 0)
    (ha : v.2 / norm2 v * speed = 0 ∨ v.1 / norm2 v * speed ≠ 0) :
    stepAgent xs ys os w h speed radius w0 w1 w2 i =
      Except.ok (pymod (v.1 / norm2 v * speed + xs.getD i 0) w,
                 pymod (v.2 / norm2 v * speed + ys.getD i 0) h,
                 if v.2 / norm2 v * speed = 0 then 0
                 else Real.tanh ((v.2 / norm2 v * speed) / (v.1 / norm2 v * speed))) := by
  have hav : agentVector xs ys os radius w0 w1 w2 i = Except.ok v := by
    rw [agentVector_eq, hv]
  by_cases hvy : v.2 / norm2 v * speed = 0
  · simp only [stepAgent, hav, Bind.bind, Except.bind, checkedDiv_of_ne hn,
      if_neg (not_not_intro hvy), if_pos hvy]
  · have hvx : v.1 / norm2 v * speed ≠ 0 := ha.resolve_left hvy
    simp only [stepAgent, hav, Bind.bind, Except.bind, checkedDiv_of_ne hn,
      checkedDiv_of_ne hvx, if_pos hvy, if_neg hvy]

theorem stepAgent_shape {xs ys os : List ℝ} {w h speed radius w0 w1 w2 : ℝ} {i : ℕ}
    {t : ℝ × ℝ × ℝ} (ht : stepAgent xs ys os w h speed radius w0 w1 w2 i = Except.ok t) :
    (∃ u, t.1 = pymod u w) ∧ (∃ u, t.2.1 = pymod u h) ∧
      (t.2.2 = 0 ∨ ∃ q, t.2.2 = Real.tanh q) := by
  rw [stepAgent, agentVector_eq] at ht
  simp only [Bind.bind, Except.bind] at ht
  obtain ⟨sx, hsx, ht⟩ := except_bind_ok.mp ht
  obtain ⟨sy, hsy, ht⟩ := except_bind_ok.mp ht
  by_cases hvy : sy * speed ≠ 0
  · rw [if_pos hvy] at ht
    cases hcd : checkedDiv (sy * speed) (sx * speed) with
    | error e => rw [hcd] at ht; simp at ht
    | ok q =>
      rw [hcd] at ht
      obtain rfl : _ = t := by simpa using ht
      exact ⟨⟨_, rfl⟩, ⟨_, rfl⟩, Or.inr ⟨q, rfl⟩⟩
  · rw [if_neg hvy] at ht
    obtain rfl : _ = t := by simpa using ht
    exact ⟨⟨_, rfl⟩, ⟨_, rfl⟩, Or.inl rfl⟩

theorem updateLoop_cons {xs ys os : List ℝ} {w h speed radius w0 w1 w2 : ℝ}
    {i : ℕ} {rest : List ℕ} {v : List ℝ × List ℝ × List ℝ} :
    updateLoop xs ys os w h speed radius w0 w1 w2 (i :: rest) = Except.ok v ↔
      ∃ t r, stepAgent xs ys os w h speed radius w0 w1 w2 i = Except.ok t ∧
        updateLoop xs ys os w h speed radius w0 w1 w2 rest = Except.ok r ∧
        v = (t.1 :: r.1, t.2.1 :: r.2.1, t.2.2 :: r.2.2) := by
  constructor
  · intro hv
    rw [updateLoop] at hv
    simp only [Bind.bind, Except.bind] at hv
    obtain ⟨t, hst, hv⟩ := except_bind_ok.mp hv
    obtain ⟨r, hr, hv⟩ := except_bind_ok.mp hv
    exact ⟨t, r, hst, hr, by simpa using hv.symm⟩
  · rintro ⟨t, r, hst, hr, rfl⟩
    rw [updateLoop]
    simp [Bind.bind, Except.bind, hst, hr]

theorem updateLoop_length {xs ys os : List ℝ} {w h speed radius w0 w1 w2 : ℝ} :
    ∀ {l : List ℕ} {a b c : List ℝ},
      updateLoop xs ys os w h speed radius w0 w1 w2 l = Except.ok (a, b, c) →
      a.length = l.length ∧ b.length = l.length ∧ c.length = l.length := by
  intro l
  induction l with
  | nil =>
    intro a b c hv
    rw [updateLoop] at hv
    obtain ⟨rfl, rfl, rfl⟩ : ([] : List ℝ) = a ∧ ([] : List ℝ) = b ∧ ([] : List ℝ) = c := by
      simpa using hv
    simp
  | cons i rest ih =>
    intro a b c hv
    obtain ⟨t, r, _, hr, heq⟩ := updateLoop_cons.mp hv
    obtain ⟨rfl, rfl, rfl⟩ : a = _ ∧ b = _ ∧ c = _ := by
      simpa [Prod.ext_iff] using heq
    have := ih hr
    simp [this.1, this.2.1, this.2.2]

theorem updateLoop_getD {xs ys os : List ℝ} {w h speed radius w0 w1 w2 : ℝ} :
    ∀ {l : List ℕ} {a b c : List ℝ},
      updateLoop xs ys os w h speed radius w0 w1 w2 l = Except.ok (a, b, c) →
      ∀ k, k < l.length →
        stepAgent xs ys os w h speed radius w0 w1 w2 (l.getD k 0) =
          Except.ok (a.getD k 0, b.getD k 0, c.getD k 0) := by
  intro l
  induction l with
  | nil => intro a b c _ k hk; simp at hk
  | cons i rest ih =>
    intro a b c hv k hk
    obtain ⟨t, r, hst, hr, heq⟩ := updateLoop_cons.mp hv
    obtain ⟨rfl, rfl, rfl⟩ : a = _ ∧ b = _ ∧ c = _ := by
      simpa [Prod.ext_iff] using heq
    cases k with
    | zero => simpa using hst
    | succ k' =>
      have hk' : k' < rest.length := by simpa using hk
      simpa using ih hr k' hk'

theorem updateLoop_mem {xs ys os : List ℝ} {w h speed radius w0 w1 w2 : ℝ} :
    ∀ {l : List ℕ} {a b c : List ℝ},
      updateLoop xs ys os w h speed radius w0 w1 w2 l = Except.ok (a, b, c) →
      (∀ x ∈ a, ∃ t : ℝ × ℝ × ℝ, (∃ i ∈ l,
          stepAgent xs ys os w h speed radius w0 w1 w2 i = Except.ok t) ∧ x = t.1) ∧
      (∀ y ∈ b, ∃ t : ℝ × ℝ × ℝ, (∃ i ∈ l,
          stepAgent xs ys os w h speed radius w0 w1 w2 i = Except.ok t) ∧ y = t.2.1) ∧
      (∀ z ∈ c, ∃ t : ℝ × ℝ × ℝ, (∃ i ∈ l,
          stepAgent xs ys os w h speed radius w0 w1 w2 i = Except.ok t) ∧ z = t.2.2) := by
  intro l
  induction l with
  | nil =>
    intro a b c hv
    rw [updateLoop] at hv
    obtain ⟨rfl, rfl, rfl⟩ : ([] : List ℝ) = a ∧ ([] : List ℝ) = b ∧ ([] : List ℝ) = c := by
      simpa using hv
    simp
  | cons i rest ih =>
    intro a b c hv
    obtain ⟨t, r, hst, hr, heq⟩ := updateLoop_cons.mp hv
    obtain ⟨rfl, rfl, rfl⟩ : a = _ ∧ b = _ ∧ c = _ := by
      simpa [Prod.ext_iff] using heq
    obtain ⟨ih1, ih2, ih3⟩ := ih hr
    refine ⟨?_, ?_, ?_⟩
    · intro x hx
      rcases List.mem_cons.mp hx with hx | hx
      · subst hx; exact ⟨t, ⟨i, by simp, hst⟩, rfl⟩
      · obtain ⟨u, ⟨j, hj, hju⟩, hxu⟩ := ih1 x hx
        exact ⟨u, ⟨j, by simp [hj], hju⟩, hxu⟩
    · intro y hy
      rcases List.mem_cons.mp hy with hy | hy
      · subst hy; exact ⟨t, ⟨i, by simp, hst⟩, rfl⟩
      · obtain ⟨u, ⟨j, hj, hju⟩, hyu⟩ := ih2 y hy
        exact ⟨u, ⟨j, by simp [hj], hju⟩, hyu⟩
    · intro z hz
      rcases List.mem_cons.mp hz with hz | hz
      · subst hz; exact ⟨t, ⟨i, by simp, hst⟩, rfl⟩
      · obtain ⟨u, ⟨j, hj, hju⟩, hzu⟩ := ih3 z hz
        exact ⟨u, ⟨j, by simp [hj], hju⟩, hzu⟩

theorem norm2_cos_sin (o : ℝ) : norm2 (Real.cos o, Real.sin o) = 1 := by
  rw [norm2]
  simp [Real.cos_sq_add_sin_sq]

theorem find_neighbors_single (x y o r : ℝ) :
    find_neighbors 0 [x] [y] [o] r = ([], [], []) := by
  simp [find_neighbors]

theorem stepAgent_of_empty (xs ys os : List ℝ) (w h speed radius w0 w1 w2 : ℝ)
    (i : ℕ) (hnb : (find_neighbors i xs ys os radius).1 = [])
    (ha : Real.sin (os.getD i 0) * speed = 0 ∨ Real.cos (os.getD i 0) * speed ≠ 0) :
    stepAgent xs ys os w h speed radius w0 w1 w2 i =
      Except.ok (pymod (Real.cos (os.getD i 0) * speed + xs.getD i 0) w,
        pymod (Real.sin (os.getD i 0) * speed + ys.getD i 0) h,
        if Real.sin (os.getD i 0) * speed = 0 then 0
        else Real.tanh ((Real.sin (os.getD i 0) * speed) /
          (Real.cos (os.getD i 0) * speed))) := by
  have hval : agentVectorVal xs ys os radius w0 w1 w2 i =
      (Real.cos (os.getD i 0), Real.sin (os.getD i 0)) := by
    simp [agentVectorVal, hnb]
  have h1 : norm2 (Real.cos (os.getD i 0), Real.sin (os.getD i 0)) ≠ 0 := by
    rw [norm2_cos_sin]; norm_num
  have hmain := stepAgent_eval xs ys os w h speed radius w0 w1 w2 i _ hval h1
    (by simpa [norm2_cos_sin] using ha)
  simpa [norm2_cos_sin] using hmain

theorem updateLoop_ok_of {xs ys os : List ℝ} {w h speed radius w0 w1 w2 : ℝ} :
    ∀ {l : List ℕ},
      (∀ i ∈ l, ∃ t, stepAgent xs ys os w h speed radius w0 w1 w2 i = Except.ok t) →
      ∃ r, updateLoop xs ys os w h speed radius w0 w1 w2 l = Except.ok r := by
  intro l
  induction l with
  | nil => exact fun _ => ⟨([], [], []), rfl⟩
  | cons i rest ih =>
    intro hall
    obtain ⟨t, ht⟩ := hall i (by simp)
    obtain ⟨r, hr⟩ := ih fun j hj => hall j (by simp [hj])
    exact ⟨_, updateLoop_cons.mpr ⟨t, r, ht, hr, rfl⟩⟩

theorem pymod_small {a b : ℝ} (h0 : 0 ≤ a) (hab : a < b) : pymod a b = a := by
  have hb : 0 < b := lt_of_le_of_lt h0 hab
  have : ⌊a / b⌋ = 0 := by
    rw [Int.floor_eq_zero_iff]
    constructor
    · positivity
    · rw [div_lt_one hb]; exact hab
  simp [pymod, this]

theorem update_eval_single :
    update_locations [5] [7] [0] (800, 600) 5 200 [1, 1, 1] =
      Except.ok ([10], [7], [0]) := by
  have hstep := stepAgent_of_empty [5] [7] [0] 800 600 5 200 1 1 1 0
    (by rw [find_neighbors_single]) (by simp)
  simp only [List.getD_cons_zero, Real.cos_zero, Real.sin_zero] at hstep
  norm_num at hstep
  rw [update_locations, if_pos (by simp)]
  show updateLoop [5] [7] [0] 800 600 5 200 1 1 1 [0] = Except.ok ([10], [7], [0])
  rw [updateLoop, hstep]
  simp only [Bind.bind, Except.bind, updateLoop]
  rw [pymod_small (by norm_num) (by norm_num), pymod_small (by norm_num) (by norm_num)]

/-! ### Claim theorems -/

/-- C9: the three points returned by `get_triangle_points` have their
centroid (arithmetic mean) exactly at `(x, y)`: the raw beak and wing points
are re-centered by the offset between their raw average and `(x, y)`. -/
theorem get_triangle_points_centroid (x y o nl wl wa : ℝ) :
    ((get_triangle_points x y o nl wl wa).1.1 +
     (get_triangle_points x y o nl wl wa).2.1.1 +
     (get_triangle_points x y o nl wl wa).2.2.1) / 3 = x ∧
    ((get_triangle_points x y o nl wl wa).1.2 +
     (get_triangle_points x y o nl wl wa).2.1.2 +
     (get_triangle_points x y o nl wl wa).2.2.2) / 3 = y := by
  constructor <;> · simp only [get_triangle_points]; ring

/-- C1: `find_neighbors` returns exactly the agents at indices `j ≠ idx`
whose plane Euclidean distance to agent `idx` is strictly below the radius
(boundary excluded, no wraparound, self excluded), in ascending index order,
with position and heading at each output slot taken from the same index. -/
theorem find_neighbors_exact (idx : ℕ) (xs ys os : List ℝ) (r : ℝ)
    (hy : ys.length = xs.length) (ho : os.length = xs.length)
    (hidx : idx < xs.length) (hr : 0 < r) :
    find_neighbors idx xs ys os r =
      ((neighborIndices idx xs ys r).map fun j => xs.getD j 0,
       (neighborIndices idx xs ys r).map fun j => ys.getD j 0,
       (neighborIndices idx xs ys r).map fun j => os.getD j 0) := by
  simp only [find_neighbors, enum_zip_eq_map_range xs ys os hy ho,
    List.filter_map, List.map_map, neighborIndices]
  rfl

/-- Witness for C1: two agents at distance 5 with radius 6; agent 1 is the
sole neighbor of agent 0. -/
theorem find_neighbors_exact_witness :
    ([(0 : ℝ), 4].length = [(0 : ℝ), 3].length ∧
      [(5 : ℝ), 6].length = [(0 : ℝ), 3].length ∧ 0 < 2 ∧ (0 : ℝ) < 6) ∧
    find_neighbors 0 [0, 3] [0, 4] [5, 6] 6 =
      ((neighborIndices 0 [0, 3] [0, 4] 6).map fun j => [(0 : ℝ), 3].getD j 0,
       (neighborIndices 0 [0, 3] [0, 4] 6).map fun j => [(0 : ℝ), 4].getD j 0,
       (neighborIndices 0 [0, 3] [0, 4] 6).map fun j => [(5 : ℝ), 6].getD j 0) :=
  ⟨⟨rfl, rfl, by norm_num, by norm_num⟩,
    find_neighbors_exact 0 [0, 3] [0, 4] [5, 6] 6 rfl rfl (by norm_num) (by norm_num)⟩

/-- C2: every position coordinate returned by `update_locations` satisfies
`0 ≤ x < canvas_width` and `0 ≤ y < canvas_height` (the modulo result is
non-negative, also for negative or out-of-bounds raw sums), whenever the
canvas dimensions are positive. -/
theorem update_locations_position_bounds
    (xs ys os : List ℝ) (w h speed radius : ℝ) (weights : List ℝ)
    (hy : ys.length = xs.length) (ho : os.length = xs.length)
    (hw : 0 < w) (hh : 0 < h) (a b c : List ℝ)
    (hok : update_locations xs ys os (w, h) speed radius weights =
      Except.ok (a, b, c)) :
    (∀ x ∈ a, 0 ≤ x ∧ x < w) ∧ (∀ y ∈ b, 0 ≤ y ∧ y < h) := by
  rw [update_locations] at hok
  by_cases hwl : weights.length = 3
  · rw [if_pos hwl] at hok
    obtain ⟨m1, m2, _⟩ := updateLoop_mem hok
    constructor
    · intro x hx
      obtain ⟨t, ⟨i, _, hit⟩, rfl⟩ := m1 x hx
      obtain ⟨⟨u, hu⟩, _, _⟩ := stepAgent_shape hit
      rw [hu]
      exact ⟨pymod_nonneg u hw, pymod_lt u hw⟩
    · intro y hyy
      obtain ⟨t, ⟨i, _, hit⟩, rfl⟩ := m2 y hyy
      obtain ⟨_, ⟨u, hu⟩, _⟩ := stepAgent_shape hit
      rw [hu]
      exact ⟨pymod_nonneg u hh, pymod_lt u hh⟩
  · rw [if_neg hwl] at hok
    exact absurd hok (by simp)

/-- Witness for C2: a single agent at (5, 7) heading 0 on an 800×600 canvas
steps to (10, 7), inside the canvas. -/
theorem update_locations_position_bounds_witness :
    ([(7 : ℝ)].length = [(5 : ℝ)].length ∧ [(0 : ℝ)].length = [(5 : ℝ)].length ∧
      (0 : ℝ) < 800 ∧ (0 : ℝ) < 600 ∧
      update_locations [5] [7] [0] (800, 600) 5 200 [1, 1, 1] =
        Except.ok ([10], [7], [0])) ∧
    (∀ x ∈ [(10 : ℝ)], 0 ≤ x ∧ x < 800) ∧ (∀ y ∈ [(7 : ℝ)], 0 ≤ y ∧ y < 600) :=
  ⟨⟨rfl, rfl, by norm_num, by norm_num, update_eval_single⟩,
    update_locations_position_bounds [5] [7] [0] 800 600 5 200 [1, 1, 1]
      rfl rfl (by norm_num) (by norm_num) [10] [7] [0] update_eval_single⟩

/-- C8: the three sequences returned by `update_locations` have the same
length as the input, and output index `i` is the update of input agent `i`:
a step never reorders, drops, or adds agents. -/
theorem update_locations_preserves_agents
    (xs ys os : List ℝ) (w h speed radius : ℝ) (weights : List ℝ)
    (hy : ys.length = xs.length) (ho : os.length = xs.length) (a b c : List ℝ)
    (hok : update_locations xs ys os (w, h) speed radius weights =
      Except.ok (a, b, c)) :
    a.length = xs.length ∧ b.length = xs.length ∧ c.length = xs.length ∧
      ∀ i, i < xs.length →
        stepAgent xs ys os w h speed radius (weights.getD 0 0) (weights.getD 1 0)
          (weights.getD 2 0) i = Except.ok (a.getD i 0, b.getD i 0, c.getD i 0) := by
  rw [update_locations] at hok
  by_cases hwl : weights.length = 3
  · rw [if_pos hwl] at hok
    have hlen := updateLoop_length hok
    have hrl : (List.range xs.length).length = xs.length := List.length_range _
    refine ⟨by rw [hlen.1, hrl], by rw [hlen.2.1, hrl], by rw [hlen.2.2, hrl], ?_⟩
    intro i hi
    have hgd := updateLoop_getD hok i (by rwa [hrl])
    have : (List.range xs.length).getD i 0 = i := by
      rw [List.getD_eq_getElem _ _ (by rwa [hrl])]
      exact List.getElem_range _ _
    rwa [this] at hgd
  · rw [if_neg hwl] at hok
    exact absurd hok (by simp)

/-- Witness for C8: the single-agent step returns three singleton lists whose
slot 0 is the update of agent 0. -/
theorem update_locations_preserves_agents_witness :
    ([(7 : ℝ)].length = [(5 : ℝ)].length ∧ [(0 : ℝ)].length = [(5 : ℝ)].length ∧
      update_locations [5] [7] [0] (800, 600) 5 200 [1, 1, 1] =
        Except.ok ([10], [7], [0])) ∧
    ([(10 : ℝ)].length = [(5 : ℝ)].length ∧ [(7 : ℝ)].length = [(5 : ℝ)].length ∧
      [(0 : ℝ)].length = [(5 : ℝ)].length ∧
      ∀ i, i < [(5 : ℝ)].length →
        stepAgent [5] [7] [0] 800 600 5 200 ([(1 : ℝ), 1, 1].getD 0 0)
          ([(1 : ℝ), 1, 1].getD 1 0) ([(1 : ℝ), 1, 1].getD 2 0) i =
          Except.ok ([(10 : ℝ)].getD i 0, [(7 : ℝ)].getD i 0, [(0 : ℝ)].getD i 0)) :=
  ⟨⟨rfl, rfl, update_eval_single⟩,
    update_locations_preserves_agents [5] [7] [0] 800 600 5 200 [1, 1, 1]
      rfl rfl [10] [7] [0] update_eval_single⟩

/-- C10: every heading returned by `update_locations` lies in `[-1, 1]`:
each new heading is `0` or a hyperbolic tangent, and `|tanh| < 1`. -/
theorem update_locations_headings_in_unit_interval
    (xs ys os : List ℝ) (w h speed radius : ℝ) (weights : List ℝ)
    (hy : ys.length = xs.length) (ho : os.length = xs.length) (a b c : List ℝ)
    (hok : update_locations xs ys os (w, h) speed radius weights =
      Except.ok (a, b, c)) :
    ∀ z ∈ c, -1 ≤ z ∧ z ≤ 1 := by
  rw [update_locations] at hok
  by_cases hwl : weights.length = 3
  · rw [if_pos hwl] at hok
    obtain ⟨_, _, m3⟩ := updateLoop_mem hok
    intro z hz
    obtain ⟨t, ⟨i, _, hit⟩, rfl⟩ := m3 z hz
    obtain ⟨_, _, hang⟩ := stepAgent_shape hit
    rcases hang with hz0 | ⟨q, hq⟩
    · rw [hz0]; norm_num
    · rw [hq]
      exact ⟨(neg_one_lt_tanh q).le, (tanh_lt_one q).le⟩
  · rw [if_neg hwl] at hok
    exact absurd hok (by simp)

/-- Witness for C10: the single-agent step returns heading 0, inside
`[-1, 1]`. -/
theorem update_locations_headings_in_unit_interval_witness :
    ([(7 : ℝ)].length = [(5 : ℝ)].length ∧ [(0 : ℝ)].length = [(5 : ℝ)].length ∧
      update_locations [5] [7] [0] (800, 600) 5 200 [1, 1, 1] =
        Except.ok ([10], [7], [0])) ∧
    ∀ z ∈ [(0 : ℝ)], -1 ≤ z ∧ z ≤ 1 :=
  ⟨⟨rfl, rfl, update_eval_single⟩,
    update_locations_headings_in_unit_interval [5] [7] [0] 800 600 5 200 [1, 1, 1]
      rfl rfl [10] [7] [0] update_eval_single⟩

/-- C5: calling `update_locations` with a weights tuple that does not have
exactly three components fails with the `InvalidArgument` condition and
produces no output (the step is a pure function, so nothing is mutated). -/
theorem update_locations_invalid_weights (xs ys os : List ℝ) (cs : ℝ × ℝ)
    (speed radius : ℝ) (weights : List ℝ) (hw : weights.length ≠ 3) :
    update_locations xs ys os cs speed radius weights =
      Except.error StepError.invalidArgument := by
  simp [update_locations, hw]

/-- C7: with at least one neighbor, the separation force has the same value
in both components — the negative of the sum of `(neighbor_x − self_x)` —
and is added to the blended vector normalised and scaled by `weights[2]`
when its magnitude is nonzero, and contributes nothing when zero. -/
theorem separation_force_uses_x_sum
    (xs ys os : List ℝ) (radius w0 w1 w2 : ℝ) (i : ℕ)
    (hnb : (find_neighbors i xs ys os radius).1 ≠ []) :
    agentVector xs ys os radius w0 w1 w2 i =
      Except.ok
        (let s := -(((find_neighbors i xs ys os radius).1.map
            fun t => t - xs.getD i 0).sum)
         let u := agentVectorNoSep xs ys os radius w0 w1 i
         if norm2 (s, s) ≠ 0 then
           (u.1 + s / norm2 (s, s) * w2, u.2 + s / norm2 (s, s) * w2)
         else u) := by
  rw [agentVector_eq]
  have hlen : ¬((find_neighbors i xs ys os radius).1.length = 0) := by
    simpa [List.length_eq_zero] using hnb
  simp only [agentVectorVal]
  rw [if_neg hlen]

/-- Witness for C7: two agents at distance 1 with radius 2; agent 1 is the
sole neighbor of agent 0. -/
theorem separation_force_uses_x_sum_witness :
    ((find_neighbors 0 [0, 1] [0, 0] [0, 0] 2).1 ≠ []) ∧
    agentVector [0, 1] [0, 0] [0, 0] 2 1 1 0 0 =
      Except.ok
        (let s := -(((find_neighbors 0 [0, 1] [0, 0] [0, 0] 2).1.map
            fun t => t - [(0 : ℝ), 1].getD 0 0).sum)
         let u := agentVectorNoSep [0, 1] [0, 0] [0, 0] 2 1 1 0
         if norm2 (s, s) ≠ 0 then
           (u.1 + s / norm2 (s, s) * 0, u.2 + s / norm2 (s, s) * 0)
         else u) := by
  have hfn : find_neighbors 0 [0, 1] [0, 0] [0, 0] 2 = ([1], [0], [0]) := by
    norm_num [find_neighbors, List.enum, List.enumFrom, List.filter_cons,
      Real.sqrt_one]
  refine ⟨by rw [hfn]; simp, ?_⟩
  exact separation_force_uses_x_sum [0, 1] [0, 0] [0, 0] 2 1 1 0 0 (by rw [hfn]; simp)

/-- C3 counterexample: the final combined-vector normalisation in
`update_locations` is NOT guarded.  Two coincident agents with opposite
headings and weights `(1, 0, 0)` — positive canvas, speed and radius,
non-negative weights — give agent 0 a zero combined vector, and the step
divides by zero. -/
theorem update_locations_division_by_zero :
    ((0 : ℝ) < 800 ∧ (0 : ℝ) < 600 ∧ (0 : ℝ) < 5 ∧ (0 : ℝ) < 1 ∧
      (0 : ℝ) ≤ 1 ∧ (0 : ℝ) ≤ 0) ∧
    update_locations [0, 0] [0, 0] [0, Real.pi] (800, 600) 5 1 [1, 0, 0] =
      Except.error StepError.divisionByZero := by
  have hfn : find_neighbors 0 [0, 0] [0, 0] [0, Real.pi] 1 =
      ([0], [0], [Real.pi]) := by
    norm_num [find_neighbors, List.enum, List.enumFrom, List.filter_cons,
      Real.sqrt_zero]
  have hval : agentVectorVal [0, 0] [0, 0] [0, Real.pi] 1 1 0 0 0 = (0, 0) := by
    norm_num [agentVectorVal, agentVectorNoSep, hfn, norm2, Real.cos_pi,
      Real.sin_pi, Real.cos_zero, Real.sin_zero, Real.sqrt_zero, Real.sqrt_one]
  have hstep : stepAgent [0, 0] [0, 0] [0, Real.pi] 800 600 5 1 1 0 0 0 =
      Except.error StepError.divisionByZero := by
    rw [stepAgent, agentVector_eq, hval]
    norm_num [Bind.bind, Except.bind, checkedDiv, norm2, Real.sqrt_zero]
  refine ⟨by norm_num, ?_⟩
  rw [update_locations, if_pos (by simp)]
  show updateLoop [0, 0] [0, 0] [0, Real.pi] 800 600 5 1 1 0 0 [0, 1] =
    Except.error StepError.divisionByZero
  rw [updateLoop, hstep]
  simp [Bind.bind, Except.bind]

/-- C3 (amended): the neighbor means and the alignment, cohesion and
separation normalisations are all guarded and never divide by zero (the
force-blending stage always succeeds); only the unguarded final
normalisation and heading division can fail, so when every agent's combined
vector has nonzero magnitude and its scaled y-component is zero or its
scaled x-component nonzero, the whole step succeeds. -/
theorem update_locations_guarded_normalizations
    (xs ys os : List ℝ) (w h speed radius w0 w1 w2 : ℝ)
    (hguard : ∀ i, i < xs.length →
      norm2 (agentVectorVal xs ys os radius w0 w1 w2 i) ≠ 0 ∧
        ((agentVectorVal xs ys os radius w0 w1 w2 i).2 /
            norm2 (agentVectorVal xs ys os radius w0 w1 w2 i) * speed = 0 ∨
          (agentVectorVal xs ys os radius w0 w1 w2 i).1 /
            norm2 (agentVectorVal xs ys os radius w0 w1 w2 i) * speed ≠ 0)) :
    ∃ r, update_locations xs ys os (w, h) speed radius [w0, w1, w2] =
      Except.ok r := by
  rw [update_locations, if_pos (by simp)]
  have : ∀ i ∈ List.range xs.length,
      ∃ t, stepAgent xs ys os w h speed radius ([w0, w1, w2].getD 0 0)
        ([w0, w1, w2].getD 1 0) ([w0, w1, w2].getD 2 0) i = Except.ok t := by
    intro i hi
    have hi' : i < xs.length := List.mem_range.mp hi
    obtain ⟨hn, ha⟩ := hguard i hi'
    exact ⟨_, stepAgent_eval xs ys os w h speed radius w0 w1 w2 i _ rfl hn ha⟩
  exact updateLoop_ok_of this

/-- Witness for C3 (amended): a single agent with heading 0 meets the
side conditions, and its step succeeds. -/
theorem update_locations_guarded_normalizations_witness :
    (∀ i, i < [(5 : ℝ)].length →
      norm2 (agentVectorVal [5] [7] [0] 200 1 1 1 i) ≠ 0 ∧
        ((agentVectorVal [5] [7] [0] 200 1 1 1 i).2 /
            norm2 (agentVectorVal [5] [7] [0] 200 1 1 1 i) * 5 = 0 ∨
          (agentVectorVal [5] [7] [0] 200 1 1 1 i).1 /
            norm2 (agentVectorVal [5] [7] [0] 200 1 1 1 i) * 5 ≠ 0)) ∧
    ∃ r, update_locations [5] [7] [0] ((800 : ℝ), (600 : ℝ)) 5 200 [1, 1, 1] =
      Except.ok r := by
  have hval : agentVectorVal [5] [7] [(0 : ℝ)] 200 1 1 1 0 = (1, 0) := by
    simp [agentVectorVal, find_neighbors_single]
  have hside : ∀ i, i < [(5 : ℝ)].length →
      norm2 (agentVectorVal [5] [7] [0] 200 1 1 1 i) ≠ 0 ∧
        ((agentVectorVal [5] [7] [0] 200 1 1 1 i).2 /
            norm2 (agentVectorVal [5] [7] [0] 200 1 1 1 i) * 5 = 0 ∨
          (agentVectorVal [5] [7] [0] 200 1 1 1 i).1 /
            norm2 (agentVectorVal [5] [7] [0] 200 1 1 1 i) * 5 ≠ 0) := by
    intro i hi
    have : i = 0 := by simpa using hi
    subst this
    rw [hval]
    norm_num [norm2, Real.sqrt_one]
  exact ⟨hside,
    update_locations_guarded_normalizations [5] [7] [0] 800 600 5 200 1 1 1 hside⟩

/-- C4 counterexample: a neighbor-free agent with heading `π/3` is returned
the new heading `tanh √3`, which differs from `π/3` both as an angle and as
a direction (`sin` differs), so the prior heading direction is NOT
preserved. -/
theorem zero_neighbor_heading_changes :
    (update_locations [0] [0] [Real.pi / 3] (800, 600) 1 200 [1, 1, 1]).map
        (fun r => r.2.2) = Except.ok [Real.tanh (Real.sqrt 3)] ∧
    Real.tanh (Real.sqrt 3) ≠ Real.pi / 3 ∧
    Real.sin (Real.tanh (Real.sqrt 3)) ≠ Real.sin (Real.pi / 3) := by
  have hs3 : (0 : ℝ) < Real.sqrt 3 := Real.sqrt_pos.mpr (by norm_num)
  have h1 : Real.tanh (Real.sqrt 3) < 1 := tanh_lt_one _
  have h1' : -1 < Real.tanh (Real.sqrt 3) := neg_one_lt_tanh _
  have hpi : 3 < Real.pi := Real.pi_gt_three
  refine ⟨?_, ?_, ?_⟩
  · have hstep := stepAgent_of_empty [0] [0] [Real.pi / 3] 800 600 1 200 1 1 1 0
      (by rw [find_neighbors_single])
      (Or.inr (by rw [List.getD_cons_zero, Real.cos_pi_div_three]; norm_num))
    rw [List.getD_cons_zero, Real.cos_pi_div_three, Real.sin_pi_div_three] at hstep
    have hne : ¬(Real.sqrt 3 / 2 * 1 = 0) := by
      have : (0 : ℝ) < Real.sqrt 3 / 2 * 1 := by linarith
      exact ne_of_gt this
    rw [if_neg hne] at hstep
    have hdiv : Real.sqrt 3 / 2 * 1 / ((1 : ℝ) / 2 * 1) = Real.sqrt 3 := by ring
    rw [hdiv] at hstep
    rw [update_locations, if_pos (by simp)]
    show (updateLoop [0] [0] [Real.pi / 3] 800 600 1 200 1 1 1 [0]).map
        (fun r => r.2.2) = Except.ok [Real.tanh (Real.sqrt 3)]
    rw [updateLoop, hstep]
    simp [Bind.bind, Except.bind, updateLoop, Except.map]
  · have h2 : (1 : ℝ) < Real.pi / 3 := by linarith
    exact ne_of_lt (h1.trans h2)
  · have hmem1 : Real.tanh (Real.sqrt 3) ∈ Set.Icc (-(Real.pi / 2)) (Real.pi / 2) :=
      Set.mem_Icc.mpr ⟨by linarith, by linarith⟩
    have hmem2 : Real.pi / 3 ∈ Set.Icc (-(Real.pi / 2)) (Real.pi / 2) :=
      Set.mem_Icc.mpr ⟨by linarith, by linarith⟩
    have hlt : Real.tanh (Real.sqrt 3) < Real.pi / 3 := by linarith
    exact ne_of_lt (Real.strictMonoOn_sin hmem1 hmem2 hlt)

/-- C4 (amended): an agent with zero neighbors is displaced by `speed` times
`(cos h, sin h)` of its prior heading `h`, position wrapped over the canvas;
the heading returned for it, however, is `tanh` of the displacement ratio
(or `0` when the y-displacement is zero), not in general the prior
heading. -/
theorem stepAgent_zero_neighbors (xs ys os : List ℝ)
    (w h speed radius w0 w1 w2 : ℝ) (i : ℕ)
    (hnb : (find_neighbors i xs ys os radius).1 = [])
    (ha : Real.sin (os.getD i 0) * speed = 0 ∨
      Real.cos (os.getD i 0) * speed ≠ 0) :
    stepAgent xs ys os w h speed radius w0 w1 w2 i =
      Except.ok (pymod (Real.cos (os.getD i 0) * speed + xs.getD i 0) w,
        pymod (Real.sin (os.getD i 0) * speed + ys.getD i 0) h,
        if Real.sin (os.getD i 0) * speed = 0 then 0
        else Real.tanh ((Real.sin (os.getD i 0) * speed) /
          (Real.cos (os.getD i 0) * speed))) :=
  stepAgent_of_empty xs ys os w h speed radius w0 w1 w2 i hnb ha

/-- Witness for C4 (amended): a lone agent at (2, 3) with heading 0 and
speed 7. -/
theorem stepAgent_zero_neighbors_witness :
    ((find_neighbors 0 [2] [3] [0] 10).1 = [] ∧
      (Real.sin ([(0 : ℝ)].getD 0 0) * 7 = 0 ∨
        Real.cos ([(0 : ℝ)].getD 0 0) * 7 ≠ 0)) ∧
    stepAgent [2] [3] [0] 100 50 7 10 1 1 1 0 =
      Except.ok (pymod (Real.cos ([(0 : ℝ)].getD 0 0) * 7 + [(2 : ℝ)].getD 0 0) 100,
        pymod (Real.sin ([(0 : ℝ)].getD 0 0) * 7 + [(3 : ℝ)].getD 0 0) 50,
        if Real.sin ([(0 : ℝ)].getD 0 0) * 7 = 0 then 0
        else Real.tanh ((Real.sin ([(0 : ℝ)].getD 0 0) * 7) /
          (Real.cos ([(0 : ℝ)].getD 0 0) * 7))) :=
  ⟨⟨by rw [find_neighbors_single], Or.inl (by simp)⟩,
    stepAgent_zero_neighbors [2] [3] [0] 100 50 7 10 1 1 1 0
      (by rw [find_neighbors_single]) (Or.inl (by simp))⟩

/-- C6: whenever an agent's computed displacement has y-component exactly
zero, the heading returned for it by the step is the angle 0, regardless of
the sign of the x-component. -/
theorem heading_zero_when_y_component_zero
    (xs ys os : List ℝ) (w h speed radius w0 w1 w2 : ℝ) (i : ℕ) (v : ℝ × ℝ)
    (hv : agentVectorVal xs ys os radius w0 w1 w2 i = v)
    (hn : norm2 v ≠ 0)
    (hy0 : v.2 / norm2 v * speed = 0) :
    stepAgent xs ys os w h speed radius w0 w1 w2 i =
      Except.ok (pymod (v.1 / norm2 v * speed + xs.getD i 0) w,
        pymod (v.2 / norm2 v * speed + ys.getD i 0) h, 0) := by
  have hmain := stepAgent_eval xs ys os w h speed radius w0 w1 w2 i v hv hn
    (Or.inl hy0)
  rw [hmain, if_pos hy0]

/-- Witness for C6: a lone agent with heading `π` has displacement
`(-5, 0)` — negative x-component, zero y-component — and is returned
heading 0 (not `π`). -/
theorem heading_zero_when_y_component_zero_witness :
    (agentVectorVal [20] [30] [Real.pi] 50 1 1 1 0 = (-1, 0) ∧
      norm2 (-1, 0) ≠ 0 ∧ (-1, 0).2 / norm2 (-1, 0) * 5 = 0) ∧
    stepAgent [20] [30] [Real.pi] 200 100 5 50 1 1 1 0 =
      Except.ok (pymod ((-1, 0).1 / norm2 (-1, 0) * 5 + [(20 : ℝ)].getD 0 0) 200,
        pymod ((-1, 0).2 / norm2 (-1, 0) * 5 + [(30 : ℝ)].getD 0 0) 100, 0) := by
  have hval : agentVectorVal [20] [30] [Real.pi] 50 1 1 1 0 = (-1, 0) := by
    simp [agentVectorVal, find_neighbors_single, Real.cos_pi, Real.sin_pi]
  have hnz : norm2 ((-1 : ℝ), (0 : ℝ)) ≠ 0 := by
    rw [norm2]; norm_num [Real.sqrt_one]
  have hy0 : ((-1 : ℝ), (0 : ℝ)).2 / norm2 ((-1 : ℝ), (0 : ℝ)) * 5 = 0 := by
    norm_num
  exact ⟨⟨hval, hnz, hy0⟩,
    heading_zero_when_y_component_zero [20] [30] [Real.pi] 200 100 5 50 1 1 1 0
      (-1, 0) hval hnz hy0⟩

/-- Witness for C5: a 2-tuple of weights is rejected. -/
theorem update_locations_invalid_weights_witness :
    ([(1 : ℝ), 1].length ≠ 3) ∧
      update_locations [5] [7] [0] (800, 600) 5 200 [(1 : ℝ), 1] =
        Except.error StepError.invalidArgument :=
  ⟨by simp, update_locations_invalid_weights [5] [7] [0] (800, 600) 5 200 [1, 1] (by simp)⟩

end Flocking
